import Mathlib

/-!
Verification of the terminalSynth repository core (terminalMIDI.c with the
terminalMIDIrecorder.c variant where the two differ).

The shallow embedding translates the C program's global state into a record
`SynthState`, each handler into a pure function `SynthState → SynthState ×
List MidiMsg` (the message list models the calls to MusicDeviceMIDIEvent /
MIDISend), and real time into explicit tick parameters (the value that
`get_current_tick()` would return at the moment the handler runs).
-/

namespace TerminalMIDI

/-! ## Constants (from the `#define` block of terminalMIDI.c) -/

def MAX_EVENTS_PER_TRACK : Nat := 10000
def BEATS_PER_BAR : Nat := 4
def TOTAL_BARS : Nat := 4
def TOTAL_BEATS : Nat := BEATS_PER_BAR * TOTAL_BARS
def MIDI_TRACKS : Nat := 16
def TICKS_PER_BEAT : Nat := 480
def TICKS_PER_16TH : Nat := TICKS_PER_BEAT / 4
def totalLoopTicks : Nat := TICKS_PER_BEAT * TOTAL_BEATS

/-! ## Data model -/

/-- One recorded MIDI event (struct MIDIEvent of terminalMIDI.c). -/
structure MIDIEvent where
  tick : Nat
  status : Nat
  note : Nat
  velocity : Nat
deriving DecidableEq, Repr

/-- One track (struct MIDITrack): the used prefix of the `events` array
together with `program`; `eventCount` is the list length. -/
structure MIDITrack where
  events : List MIDIEvent
  program : Nat
deriving DecidableEq, Repr

/-- A three-byte MIDI message as submitted to the synth or the MIDI port. -/
structure MidiMsg where
  status : Nat
  data1 : Nat
  data2 : Nat
deriving DecidableEq, Repr

/-- Read a track of the 16-entry track array. -/
def getTrack (ts : List MIDITrack) (i : Nat) : MIDITrack :=
  ts.getD i ⟨[], 0⟩

/-- Read an entry of the held-note array `int8_t heldNoteChannel[128]`;
`none` models the value -1. -/
def getHeld (held : List (Option Nat)) (note : Nat) : Option Nat :=
  held.getD note none

/-- The program's global mutable state (the file-scope variables of
terminalMIDI.c that the claims concern). -/
structure SynthState where
  tracks : List MIDITrack
  currentChannel : Nat
  currentOctave : Nat
  heldNoteChannel : List (Option Nat)
  clockRunning : Bool
  recording : Bool
  recordArmed : Bool
  capsLockOn : Bool
  metronomeEnabled : Bool
  quantizeEnabled : Bool
  metronomeBPM : Nat
  currentBeat : Nat
  recordStartBeat : Nat
  beatsRecorded : Nat
  lastPlaybackTick : Nat
  selectedOutput : Nat
  midiDestCount : Nat
deriving DecidableEq, Repr

/-- Initial state: `main` zero-fills `tracks`, memsets `heldNoteChannel`
to -1 and leaves the initializers of the globals; `midiDestCount` is
whatever `init_midi_output` enumerated. -/
def initState (destCount : Nat) : SynthState where
  tracks := List.replicate 16 ⟨[], 0⟩
  currentChannel := 0
  currentOctave := 3
  heldNoteChannel := List.replicate 128 none
  clockRunning := false
  recording := false
  recordArmed := false
  capsLockOn := false
  metronomeEnabled := true
  quantizeEnabled := false
  metronomeBPM := 120
  currentBeat := 0
  recordStartBeat := 0
  beatsRecorded := 0
  lastPlaybackTick := 0
  selectedOutput := 0
  midiDestCount := destCount

/-! ## Output routing (send_midi_to_output, note_on_internal, note_off_internal) -/

/-- send_midi_to_output: drops the message unless an external destination
is selected and valid. -/
def send_midi_to_output (s : SynthState) (status data1 data2 : Nat) : List MidiMsg :=
  if s.selectedOutput = 0 ∨ s.midiDestCount < s.selectedOutput then []
  else [⟨status, data1, data2⟩]

/-- note_on_internal: internal synth gets 0x90|ch; external output gets the
same bytes through send_midi_to_output. -/
def note_on_internal (s : SynthState) (channel note velocity : Nat) : List MidiMsg :=
  if 128 ≤ note then []
  else if s.selectedOutput = 0 then [⟨0x90 ||| channel, note, velocity⟩]
  else send_midi_to_output s (0x90 ||| channel) note velocity

/-- note_off_internal: internal synth gets 0x80|ch, vel 0; an external
destination gets note-on with velocity 0 instead. -/
def note_off_internal (s : SynthState) (channel note : Nat) : List MidiMsg :=
  if 128 ≤ note then []
  else if s.selectedOutput = 0 then [⟨0x80 ||| channel, note, 0⟩]
  else send_midi_to_output s (0x90 ||| channel) note 0

/-! ## Recording helpers -/

/-- The 16th-note snap computed in note_on, note_off and
quantize_all_tracks: `((tick + TICKS_PER_16TH/2) / TICKS_PER_16TH) *
TICKS_PER_16TH % totalLoopTicks`. -/
def quantizeTick (tick : Nat) : Nat :=
  (tick + TICKS_PER_16TH / 2) / TICKS_PER_16TH * TICKS_PER_16TH % totalLoopTicks

/-- Append one event to `tracks[channel]` if under capacity, applying the
input quantizer when enabled (the recording block shared by note_on and
note_off). -/
def recordEvent (s : SynthState) (channel : Nat) (tick status note velocity : Nat) :
    SynthState :=
  let track := getTrack s.tracks channel
  if track.events.length < MAX_EVENTS_PER_TRACK then
    let tick1 := if s.quantizeEnabled then quantizeTick tick else tick
    let track1 : MIDITrack := { track with events := track.events ++ [⟨tick1, status, note, velocity⟩] }
    { s with tracks := s.tracks.set channel track1 }
  else s

/-- note_on: sound the note on the current channel, mark it held there,
and record it when recording; `tick` is the get_current_tick value. -/
def note_on (s : SynthState) (note velocity tick : Nat) : SynthState × List MidiMsg :=
  if 128 ≤ note then (s, [])
  else
    let msgs := note_on_internal s s.currentChannel note velocity
    let s1 := { s with heldNoteChannel := s.heldNoteChannel.set note (some s.currentChannel) }
    if s1.recording ∧ s1.clockRunning then
      (recordEvent s1 s1.currentChannel tick 0x90 note velocity, msgs)
    else (s1, msgs)

/-- note_off: a complete no-op unless the note is held; otherwise release
on the channel stored at its press and record the note-off there. -/
def note_off (s : SynthState) (note tick : Nat) : SynthState × List MidiMsg :=
  if 128 ≤ note then (s, [])
  else
    match getHeld s.heldNoteChannel note with
    | none => (s, [])
    | some channel =>
      let msgs := note_off_internal s channel note
      let s1 := { s with heldNoteChannel := s.heldNoteChannel.set note none }
      if s1.recording ∧ s1.clockRunning then
        (recordEvent s1 channel tick 0x80 note 0, msgs)
      else (s1, msgs)

/-- midi_panic: CC 123 on all 16 channels, then memset the held-note map
to "not held". -/
def midi_panic (s : SynthState) : SynthState × List MidiMsg :=
  ({ s with heldNoteChannel := List.replicate 128 none },
   (List.range 16).flatMap fun ch =>
     if s.selectedOutput = 0 then [⟨0xB0 ||| ch, 123, 0⟩]
     else send_midi_to_output s (0xB0 ||| ch) 123 0)

/-! ## Commands rejected while recording -/

/-- program_change: rejected while recording; otherwise store and emit. -/
def program_change (s : SynthState) (program : Nat) : SynthState × List MidiMsg :=
  if s.recording then (s, [])
  else
    let track1 : MIDITrack := { getTrack s.tracks s.currentChannel with program := program }
    ({ s with tracks := s.tracks.set s.currentChannel track1 },
     if s.selectedOutput = 0 then [⟨0xC0 ||| s.currentChannel, program, 0⟩]
     else send_midi_to_output s (0xC0 ||| s.currentChannel) program 0)

/-- channel_change: rejected while recording; otherwise flush the old
channel (128 note-offs), clear its held entries, switch, re-send program. -/
def channel_change (s : SynthState) (channel : Nat) : SynthState × List MidiMsg :=
  if s.recording then (s, [])
  else
    let flushMsgs := (List.range 128).flatMap fun i =>
      if s.selectedOutput = 0 then [⟨0x80 ||| s.currentChannel, i, 0⟩]
      else send_midi_to_output s (0x90 ||| s.currentChannel) i 0
    let held1 := s.heldNoteChannel.map fun h =>
      if h = some s.currentChannel then none else h
    let s1 := { s with heldNoteChannel := held1, currentChannel := channel }
    let progMsgs :=
      if s.selectedOutput = 0 then
        [⟨0xC0 ||| channel, (getTrack s.tracks channel).program, 0⟩]
      else send_midi_to_output s (0xC0 ||| channel) (getTrack s.tracks channel).program 0
    (s1, flushMsgs ++ progMsgs)

/-- tempo_change: rejected while recording; otherwise clamp to [20,300]. -/
def tempo_change (s : SynthState) (bpm : Int) : SynthState × List MidiMsg :=
  if s.recording then (s, [])
  else
    let b1 := if bpm < 20 then 20 else bpm
    let b2 := if 300 < b1 then 300 else b1
    ({ s with metronomeBPM := b2.toNat }, [])

/-- clear_current_track: rejected while recording; otherwise eventCount=0. -/
def clear_current_track (s : SynthState) : SynthState × List MidiMsg :=
  if s.recording then (s, [])
  else
    let track1 : MIDITrack := { getTrack s.tracks s.currentChannel with events := [] }
    ({ s with tracks := s.tracks.set s.currentChannel track1 }, [])

/-- quantize_all_tracks: rewrite every tick of every track to the
16th-note grid. -/
def quantize_all_tracks (ts : List MIDITrack) : List MIDITrack :=
  ts.map fun track =>
    { track with events := track.events.map fun e => { e with tick := quantizeTick e.tick } }

/-- toggle_quantize: flip the flag and, when turning it on, quantize all
tracks. Note: the C function has no recording guard. -/
def toggle_quantize (s : SynthState) : SynthState × List MidiMsg :=
  let s1 := { s with quantizeEnabled := !s.quantizeEnabled }
  if s1.quantizeEnabled then ({ s1 with tracks := quantize_all_tracks s1.tracks }, [])
  else (s1, [])

/-! ## Transport (terminalMIDI.c variant) -/

/-- stop_recording. -/
def stop_recording (s : SynthState) : SynthState :=
  if ¬s.recording ∧ ¬s.recordArmed then s
  else { s with recording := false, recordArmed := false }

/-- arm_recording: requires a running clock and neither recording nor
already armed. -/
def arm_recording (s : SynthState) : SynthState :=
  if ¬s.clockRunning ∨ s.recording ∨ s.recordArmed then s
  else { s with recordArmed := true }

/-- start_recording_on_beat of terminalMIDI.c: flips armed→recording and
resets the beat counter; tracks are untouched (overdub). -/
def start_recording_on_beat (s : SynthState) : SynthState :=
  { s with recordArmed := false, recording := true,
           recordStartBeat := s.currentBeat, beatsRecorded := 0 }

/-- start_recording_on_beat of the terminalMIDIrecorder.c variant: same,
but clears the current track first (overwrite). -/
def start_recording_on_beat_rec (s : SynthState) : SynthState :=
  let s1 := { s with recordArmed := false, recording := true,
                     recordStartBeat := s.currentBeat, beatsRecorded := 0 }
  let track1 : MIDITrack := { getTrack s1.tracks s1.currentChannel with events := [] }
  { s1 with tracks := s1.tracks.set s1.currentChannel track1 }

/-- beat_tick of terminalMIDI.c, in the order of the source: loop rebase
on beat 0, metronome, armed→recording (latch on), stop when latch off,
beat counting with auto-stop, beat advance. -/
def beat_tick (s : SynthState) : SynthState × List MidiMsg :=
  if ¬s.clockRunning then (s, [])
  else
    let beatInBar := s.currentBeat % BEATS_PER_BAR
    let s1 := if s.currentBeat = 0 then { s with lastPlaybackTick := 0 } else s
    let msgs :=
      if s1.metronomeEnabled ∧ s1.selectedOutput = 0 then
        [⟨0x99, if beatInBar = 0 then 76 else 77, if beatInBar = 0 then 120 else 80⟩]
      else []
    let s2 := if s1.recordArmed ∧ s1.capsLockOn then start_recording_on_beat s1 else s1
    let s3 := if (s2.recording ∨ s2.recordArmed) ∧ ¬s2.capsLockOn then stop_recording s2 else s2
    let s4 :=
      if s3.recording then
        let sInc := { s3 with beatsRecorded := s3.beatsRecorded + 1 }
        if TOTAL_BEATS < sInc.beatsRecorded then stop_recording sInc else sInc
      else s3
    ({ s4 with currentBeat := (s4.currentBeat + 1) % TOTAL_BEATS }, msgs)

/-- start_clock: reset transport timing state and fire the first beat
immediately. -/
def start_clock (s : SynthState) : SynthState × List MidiMsg :=
  if s.clockRunning then (s, [])
  else beat_tick { s with clockRunning := true, currentBeat := 0, lastPlaybackTick := 0 }

/-- stop_clock: stop, clear recording flag (but not recordArmed), send CC
123 on all 16 channels, clear the held-note map. -/
def stop_clock (s : SynthState) : SynthState × List MidiMsg :=
  if ¬s.clockRunning then (s, [])
  else
    ({ s with clockRunning := false, recording := false, currentBeat := 0,
              heldNoteChannel := List.replicate 128 none },
     (List.range 16).flatMap fun ch =>
       if s.selectedOutput = 0 then [⟨0xB0 ||| ch, 123, 0⟩]
       else send_midi_to_output s (0xB0 ||| ch) 123 0)

/-- toggle_clock. -/
def toggle_clock (s : SynthState) : SynthState × List MidiMsg :=
  if s.clockRunning then stop_clock s else start_clock s

/-- sync_recording_to_capslock. -/
def sync_recording_to_capslock (s : SynthState) : SynthState :=
  if s.capsLockOn then arm_recording s else stop_recording s

/-- The Caps Lock flags-changed handler: update the latch, then sync. -/
def caps_event (s : SynthState) (capsOn : Bool) : SynthState :=
  sync_recording_to_capslock { s with capsLockOn := capsOn }

/-- toggle_metronome. -/
def toggle_metronome (s : SynthState) : SynthState :=
  { s with metronomeEnabled := !s.metronomeEnabled }

/-- octave_up / octave_down, clamped to [0,8]. -/
def octave_up (s : SynthState) : SynthState :=
  if s.currentOctave < 8 then { s with currentOctave := s.currentOctave + 1 } else s

def octave_down (s : SynthState) : SynthState :=
  if 0 < s.currentOctave then { s with currentOctave := s.currentOctave - 1 } else s

/-- select_midi_output: 0 or a valid external index; else no-op. -/
def select_midi_output (s : SynthState) (index : Nat) : SynthState :=
  if index = 0 then { s with selectedOutput := 0 }
  else if 0 < index ∧ index ≤ s.midiDestCount then { s with selectedOutput := index }
  else s

/-! ## beat_tick of the terminalMIDIrecorder.c variant (for claims C5/C7):
no Caps Lock latch check, auto-stop at `>=`, loop rebase after advancing. -/

def beat_tick_rec (s : SynthState) : SynthState × List MidiMsg :=
  if ¬s.clockRunning then (s, [])
  else
    let beatInBar := s.currentBeat % BEATS_PER_BAR
    let msgs :=
      if s.metronomeEnabled then
        [⟨0x99, if beatInBar = 0 then 76 else 77, if beatInBar = 0 then 120 else 80⟩]
      else []
    let s1 := if s.recordArmed then start_recording_on_beat_rec s else s
    let s2 :=
      if s1.recording then
        let sInc := { s1 with beatsRecorded := s1.beatsRecorded + 1 }
        if TOTAL_BEATS ≤ sInc.beatsRecorded then stop_recording sInc else sInc
      else s1
    let s3 : SynthState := { s2 with currentBeat := (s2.currentBeat + 1) % TOTAL_BEATS }
    if s3.currentBeat = 0 then ({ s3 with lastPlaybackTick := 0 }, msgs) else (s3, msgs)

/-! ## Playback scanner (play_events_in_range / playback_tick) -/

/-- The range test of play_events_in_range: half-open [start, end), or the
wrapped union when start > end. -/
def inRange (startTick endTick tick : Nat) : Bool :=
  if startTick ≤ endTick then decide (startTick ≤ tick) && decide (tick < endTick)
  else decide (startTick ≤ tick) || decide (tick < endTick)

/-- The (track index, event) pairs that play_events_in_range hands to
note_on_internal / note_off_internal, in scan order. -/
def fired_in_range (ts : List MIDITrack) (startTick endTick : Nat) :
    List (Nat × MIDIEvent) :=
  ts.enum.flatMap fun te =>
    (te.2.events.filter fun e => inRange startTick endTick e.tick).map fun e => (te.1, e)

/-- playback_tick: on wrap (`nowTick < lastPlaybackTick`) scan
[last, totalLoopTicks) then [0, now); otherwise scan [last, now); finally
set lastPlaybackTick := nowTick (returned as second component). -/
def playback_scan (ts : List MIDITrack) (lastTick nowTick : Nat) :
    List (Nat × MIDIEvent) × Nat :=
  if nowTick < lastTick then
    (fired_in_range ts lastTick totalLoopTicks ++ fired_in_range ts 0 nowTick, nowTick)
  else
    (fired_in_range ts lastTick nowTick, nowTick)

/-- The tick-set predicate the claim describes: [lastTick, nowTick) when
nowTick ≥ lastTick, else [lastTick, totalLoopTicks) ∪ [0, nowTick).
Stated from the claim's words, to be compared with the code's scan. -/
def claimedHit (lastTick nowTick tick : Nat) : Bool :=
  if lastTick ≤ nowTick then decide (lastTick ≤ tick) && decide (tick < nowTick)
  else (decide (lastTick ≤ tick) && decide (tick < totalLoopTicks)) || decide (tick < nowTick)

/-- The events the claim says one fire emits. -/
def claimedFired (ts : List MIDITrack) (lastTick nowTick : Nat) :
    List (Nat × MIDIEvent) :=
  ts.enum.flatMap fun te =>
    (te.2.events.filter fun e => claimedHit lastTick nowTick e.tick).map fun e => (te.1, e)

/-- Whether one playback_tick fire with the given lastPlaybackTick and
current tick plays an event lying at `tick` (the effective predicate of
playback_tick's two branches). -/
def scanHits (lastTick nowTick tick : Nat) : Bool :=
  if nowTick < lastTick then
    inRange lastTick totalLoopTicks tick || inRange 0 nowTick tick
  else inRange lastTick nowTick tick

/-! ## The command step machine (event_tap_callback dispatch + beat timer) -/

/-- One run-loop stimulus: a key command, a Caps Lock flags change, or a
beat-timer fire. Times (the get_current_tick values) are oracle
parameters. -/
inductive Cmd where
  | toggleClock
  | capsSet (capsOn : Bool)
  | beatFire
  | noteOnKey (note velocity tick : Nat)
  | noteOffKey (note tick : Nat)
  | tempoSet (bpm : Int)
  | programSet (p : Nat)
  | channelSet (ch : Nat)
  | clearTrack
  | quantizeToggle
  | metronomeToggle
  | octaveUp
  | octaveDown
  | panic
  | selectOutput (i : Nat)
deriving DecidableEq, Repr

/-- The state transition of one stimulus. -/
def step (c : Cmd) (s : SynthState) : SynthState :=
  match c with
  | .toggleClock => (toggle_clock s).1
  | .capsSet b => caps_event s b
  | .beatFire => (beat_tick s).1
  | .noteOnKey n v t => (note_on s n v t).1
  | .noteOffKey n t => (note_off s n t).1
  | .tempoSet b => (tempo_change s b).1
  | .programSet p => (program_change s p).1
  | .channelSet ch => (channel_change s ch).1
  | .clearTrack => (clear_current_track s).1
  | .quantizeToggle => (toggle_quantize s).1
  | .metronomeToggle => toggle_metronome s
  | .octaveUp => octave_up s
  | .octaveDown => octave_down s
  | .panic => (midi_panic s).1
  | .selectOutput i => select_midi_output s i

/-- States reachable from the initial state by any stimulus sequence. -/
inductive Reachable : SynthState → Prop
  | init (destCount : Nat) : Reachable (initState destCount)
  | step (c : Cmd) {s : SynthState} : Reachable s → Reachable (step c s)

/-! ## SMF writer (save_midi_file) -/

/-- write_variable_length's continuation bytes (the groups above the low
7 bits, most significant first, each with bit 7 set). -/
def writeVLQhigh (v : Nat) : List Nat :=
  if h : v = 0 then []
  else writeVLQhigh (v / 128) ++ [v % 128 + 128]
decreasing_by exact Nat.div_lt_self (Nat.pos_of_ne_zero h) (by norm_num)

/-- write_variable_length: 7 bits per byte, bit 7 marks continuation. -/
def write_variable_length (v : Nat) : List Nat :=
  writeVLQhigh (v / 128) ++ [v % 128]

/-- write_big_endian_16. -/
def be16 (v : Nat) : List Nat := [v / 256 % 256, v % 256]

/-- write_big_endian_32. -/
def be32 (v : Nat) : List Nat :=
  [v / 16777216 % 256, v / 65536 % 256, v / 256 % 256, v % 256]

/-- qsort with compare_events orders by tick; ties keep some order with
both events surviving — modelled as a stable merge sort by tick. -/
def sortEvents (evs : List MIDIEvent) : List MIDIEvent :=
  evs.mergeSort fun a b => decide (a.tick ≤ b.tick)

/-- The per-event bytes of one saved track: VLQ delta from the previous
tick, then status|channel, note, velocity. -/
def eventBytes (ch : Nat) : Nat → List MIDIEvent → List Nat
  | _, [] => []
  | lastTick, e :: rest =>
    write_variable_length (e.tick - lastTick) ++ [e.status ||| ch, e.note, e.velocity] ++
      eventBytes ch e.tick rest

/-- Body of one channel track chunk: program change at delta 0, the
sorted events, end-of-track at delta 0. -/
def trackBody (ch : Nat) (track : MIDITrack) : List Nat :=
  write_variable_length 0 ++ [0xC0 ||| ch, track.program] ++
    eventBytes ch 0 (sortEvents track.events) ++
    write_variable_length 0 ++ [0xFF, 0x2F, 0x00]

/-- Body of the conductor track: tempo meta (3 truncated big-endian bytes
of 60000000/bpm), 4/4 time signature meta, end-of-track. -/
def tempoBody (bpm : Nat) : List Nat :=
  write_variable_length 0 ++
    [0xFF, 0x51, 0x03,
     60000000 / bpm / 65536 % 256, 60000000 / bpm / 256 % 256, 60000000 / bpm % 256] ++
    write_variable_length 0 ++ [0xFF, 0x58, 0x04, BEATS_PER_BAR, 2, 24, 8] ++
    write_variable_length 0 ++ [0xFF, 0x2F, 0x00]

/-- An MTrk chunk: tag, backpatched big-endian length, body. -/
def mtrkChunk (body : List Nat) : List Nat :=
  [0x4D, 0x54, 0x72, 0x6B] ++ be32 body.length ++ body

/-- The bytes save_midi_file writes: MThd header (format 1, 1 + number of
non-empty tracks, division 480), conductor chunk, one chunk per non-empty
track. -/
def save_midi_bytes (ts : List MIDITrack) (bpm : Nat) : List Nat :=
  [0x4D, 0x54, 0x68, 0x64] ++ be32 6 ++ be16 1 ++
    be16 (1 + (ts.filter fun t => !t.events.isEmpty).length) ++ be16 TICKS_PER_BEAT ++
    mtrkChunk (tempoBody bpm) ++
    (ts.enum.flatMap fun te =>
      if te.2.events.isEmpty then [] else mtrkChunk (trackBody te.1 te.2))

/-! ## An independent SMF reader, written to the spec's description of a
standard SMF parser (used only on the spec side of the round-trip claim). -/

/-- A channel event recovered by the reader: absolute tick, status high
nibble, channel, and the two data bytes. -/
structure ChEvent where
  tick : Nat
  status : Nat
  channel : Nat
  note : Nat
  velocity : Nat
deriving DecidableEq, Repr

/-- Decode one variable-length quantity. -/
def readVLQaux : Nat → List Nat → Option (Nat × List Nat)
  | _, [] => none
  | acc, b :: rest =>
    if b < 128 then some (acc * 128 + b, rest)
    else readVLQaux (acc * 128 + b % 128) rest

def readVLQ (bytes : List Nat) : Option (Nat × List Nat) :=
  readVLQaux 0 bytes

def readBE16 : List Nat → Option (Nat × List Nat)
  | a :: b :: rest => some (a * 256 + b, rest)
  | _ => none

def readBE32 : List Nat → Option (Nat × List Nat)
  | a :: b :: c :: d :: rest => some (((a * 256 + b) * 256 + c) * 256 + d, rest)
  | _ => none

/-- Parse the events of one MTrk body: VLQ delta, then a meta event
(stop at end-of-track), a 1-data-byte message (Cn/Dn), or a 2-data-byte
message; note on/off messages are collected with absolute ticks. -/
def parseTrackBody : Nat → Nat → List Nat → Option (List ChEvent)
  | 0, _, _ => none
  | fuel + 1, time, bytes =>
    match readVLQ bytes with
    | none => none
    | some (delta, rest) =>
      match rest with
      | [] => none
      | st :: rest1 =>
        if st = 0xFF then
          match rest1 with
          | [] => none
          | ty :: rest2 =>
            match readVLQ rest2 with
            | none => none
            | some (len, rest3) =>
              if ty = 0x2F ∧ len = 0 then some []
              else parseTrackBody fuel (time + delta) (rest3.drop len)
        else if 0xC0 ≤ st ∧ st < 0xE0 then
          match rest1 with
          | [] => none
          | _ :: rest2 => parseTrackBody fuel (time + delta) rest2
        else if 0x80 ≤ st ∧ st < 0xC0 then
          match rest1 with
          | d1 :: d2 :: rest2 =>
            match parseTrackBody fuel (time + delta) rest2 with
            | none => none
            | some evs =>
              if st < 0xA0 then
                some (⟨time + delta, st / 16 * 16, st % 16, d1, d2⟩ :: evs)
              else some evs
          | _ => none
        else none

/-- Parse `count` successive MTrk chunks. -/
def parseChunks : Nat → List Nat → Option (List (List ChEvent))
  | 0, _ => some []
  | count + 1, bytes =>
    match bytes with
    | 0x4D :: 0x54 :: 0x72 :: 0x6B :: rest =>
      match readBE32 rest with
      | none => none
      | some (len, rest1) =>
        match parseTrackBody (len + 1) 0 (rest1.take len), parseChunks count (rest1.drop len) with
        | some evs, some more => some (evs :: more)
        | _, _ => none
    | _ => none

/-- A parsed SMF file. -/
structure SMFile where
  format : Nat
  ntracks : Nat
  division : Nat
  trackEvents : List (List ChEvent)
deriving DecidableEq, Repr

/-- Parse a whole SMF file: MThd header then the announced chunks. -/
def parseSMF (bytes : List Nat) : Option SMFile :=
  match bytes with
  | 0x4D :: 0x54 :: 0x68 :: 0x64 :: rest =>
    (match readBE32 rest with
     | some (6, rest1) =>
       (match readBE16 rest1 with
        | none => none
        | some (fmt, rest2) =>
          match readBE16 rest2 with
          | none => none
          | some (ntrks, rest3) =>
            match readBE16 rest3 with
            | none => none
            | some (division, rest4) =>
              match parseChunks ntrks rest4 with
              | none => none
              | some tracksEvs => some ⟨fmt, ntrks, division, tracksEvs⟩)
     | _ => none)
  | _ => none

/-! ## Auxiliary definitions used by the theorems -/

/-- The transport invariant claimed by the spec's data model, restricted
to the part that actually holds (see the C3 theorems). -/
def TransportInv (s : SynthState) : Prop :=
  (s.recording = true → s.clockRunning = true) ∧
  (s.recordArmed = true → s.recording = false)

/-- A state in the middle of a recording pass with one unquantized event
on track 0 (used as concrete input by several counterexamples). -/
def recState : SynthState :=
  { initState 0 with
      clockRunning := true
      recording := true
      tracks := (List.replicate 16 (⟨[], 0⟩ : MIDITrack)).set 0 ⟨[⟨137, 0x90, 36, 100⟩], 0⟩ }

/-- A state reached by start clock, Caps Lock on, stop clock. -/
def armedStoppedState : SynthState :=
  step .toggleClock (step (.capsSet true) (step .toggleClock (initState 0)))

/-- A state with note 60 held on channel 0 and the clock stopped. -/
def heldNoteState : SynthState :=
  { initState 0 with
      heldNoteChannel := (List.replicate 128 (none : Option Nat)).set 60 (some 0) }

/-- A one-track store with an event at the last tick of the loop. -/
def c1Tracks : List MIDITrack :=
  [⟨[⟨7679, 0x90, 36, 100⟩], 0⟩]

/-- A 16-track store whose first track holds two events stored out of
tick order (as overdubbing can produce). -/
def c2Tracks : List MIDITrack :=
  ⟨[⟨480, 0x80, 36, 0⟩, ⟨0, 0x90, 36, 100⟩], 5⟩ :: List.replicate 15 ⟨[], 0⟩

/-- A recorder-variant state one beat before the 16th recorded beat. -/
def beat15State : SynthState :=
  { initState 0 with clockRunning := true, recording := true, beatsRecorded := 15, capsLockOn := true }

/-- Accumulator shape of the VLQ reader while it consumes the writer's
continuation bytes. -/
def vshift (acc v : Nat) : Nat :=
  if v = 0 then acc else vshift acc (v / 128) * 128 + v % 128
decreasing_by exact Nat.div_lt_self (Nat.pos_of_ne_zero (by assumption)) (by norm_num)

/-- The events of a list are ascending by tick and all at or after t. -/
def ascFrom : Nat → List MIDIEvent → Prop
  | _, [] => True
  | t, e :: rest => t ≤ e.tick ∧ ascFrom e.tick rest

/-- The channel event a standard reader recovers from a stored event of
the track on channel ch. -/
def chEventOf (ch : Nat) (e : MIDIEvent) : ChEvent :=
  ⟨e.tick, e.status, ch, e.note, e.velocity⟩

/-! ## Claim C6 : quantize_all_tracks lands on the grid and is idempotent -/

theorem quantizeTick_grid (t : Nat) :
    quantizeTick t % TICKS_PER_16TH = 0 ∧ quantizeTick t < totalLoopTicks := by
  simp only [quantizeTick, TICKS_PER_16TH, TICKS_PER_BEAT, totalLoopTicks, TOTAL_BEATS,
    BEATS_PER_BAR, TOTAL_BARS]
  omega

theorem quantizeTick_idem (t : Nat) : quantizeTick (quantizeTick t) = quantizeTick t := by
  simp only [quantizeTick, TICKS_PER_16TH, TICKS_PER_BEAT, totalLoopTicks, TOTAL_BEATS,
    BEATS_PER_BAR, TOTAL_BARS]
  omega

/-- Claim C6: quantizeAll rewrites every event tick to the 16th-note grid
(a multiple of 120 inside [0, totalLoopTicks)), and applying it twice
equals applying it once. -/
theorem c6_quantize_all_grid_idempotent (ts : List MIDITrack) :
    ((quantize_all_tracks ts).all fun track =>
      track.events.all fun e =>
        decide (e.tick % TICKS_PER_16TH = 0) && decide (e.tick < totalLoopTicks)) = true ∧
    quantize_all_tracks (quantize_all_tracks ts) = quantize_all_tracks ts := by
  constructor
  · simp only [quantize_all_tracks, List.all_eq_true, List.mem_map, Bool.and_eq_true,
      decide_eq_true_eq]
    rintro track ⟨tr0, -, rfl⟩ e he
    simp only [List.mem_map] at he
    obtain ⟨e0, -, rfl⟩ := he
    exact quantizeTick_grid e0.tick
  · simp only [quantize_all_tracks, List.map_map]
    refine List.map_congr_left fun track _ => ?_
    simp only [Function.comp_apply, List.map_map]
    congr 1
    refine List.map_congr_left fun e _ => ?_
    simp [Function.comp_apply, quantizeTick_idem]

/-! ## Claim C10 : note_off on a non-held note is a complete no-op -/

/-- Claim C10: if the held-note map does not hold `note`, note_off emits
nothing, records nothing and changes no state. -/
theorem c10_note_off_not_held_noop (s : SynthState) (note tick : Nat)
    (h : getHeld s.heldNoteChannel note = none) :
    note_off s note tick = (s, []) := by
  unfold note_off
  split
  · rfl
  · rw [h]

theorem c10_note_off_not_held_noop_witness :
    getHeld (initState 0).heldNoteChannel 60 = none ∧
      note_off (initState 0) 60 0 = (initState 0, []) :=
  ⟨by decide, c10_note_off_not_held_noop (initState 0) 60 0 (by decide)⟩

/-! ## List helper lemmas -/

theorem getD_set_ne {α : Type} (l : List α) (i j : Nat) (a d : α) (h : i ≠ j) :
    (l.set i a).getD j d = l.getD j d := by
  simp [List.getD, List.getElem?_set_ne h]

theorem getD_set_self {α : Type} (l : List α) (i : Nat) (a d : α) :
    (l.set i a).getD i d = if i < l.length then a else d := by
  simp [List.getD, List.getElem?_set]
  split <;> simp

theorem getHeld_set_none (held : List (Option Nat)) (note : Nat) :
    getHeld (held.set note none) note = none := by
  rw [getHeld, getD_set_self]
  split <;> rfl

theorem flatMap_singleton_map {α β : Type} (l : List α) (f : α → β) :
    (l.flatMap fun x => [f x]) = l.map f := by
  induction l with
  | nil => rfl
  | cons a l ih => simp [List.flatMap_cons, ih]

/-! ## Claim C4 : commands rejected while recording -/

/-- Claim C4 counterexample: toggle_quantize has no recording guard —
invoked during recording it flips quantizeEnabled and rewrites the
recorded tick 137 to 120, so the program state changes. -/
theorem c4_counterexample_quantize_not_rejected :
    recState.recording = true ∧
    recState.quantizeEnabled = false ∧
    ((toggle_quantize recState).1).quantizeEnabled = true ∧
    (getTrack recState.tracks 0).events = [⟨137, 0x90, 36, 100⟩] ∧
    (getTrack ((toggle_quantize recState).1).tracks 0).events = [⟨120, 0x90, 36, 100⟩] := by
  decide

/-- Claim C4 (amended): while recording, program change, channel change,
tempo change and clear-track are rejected as complete no-ops; the
quantize toggle is not rejected (see the counterexample). -/
theorem c4_recording_rejects_commands (s : SynthState) (h : s.recording = true)
    (p ch : Nat) (bpm : Int) :
    program_change s p = (s, []) ∧ channel_change s ch = (s, []) ∧
    tempo_change s bpm = (s, []) ∧ clear_current_track s = (s, []) := by
  refine ⟨?_, ?_, ?_, ?_⟩ <;>
    simp [program_change, channel_change, tempo_change, clear_current_track, h]

theorem c4_recording_rejects_commands_witness :
    recState.recording = true ∧
      (program_change recState 7 = (recState, []) ∧
        channel_change recState 3 = (recState, []) ∧
        tempo_change recState 200 = (recState, []) ∧
        clear_current_track recState = (recState, [])) :=
  ⟨by decide, c4_recording_rejects_commands recState (by decide) 7 3 200⟩

/-! ## Claim C5 : record start and track contents -/

/-- Claim C5 counterexample: in the terminalMIDIrecorder.c variant,
start_recording_on_beat clears the current track. -/
theorem c5_counterexample_overwrite_variant :
    (getTrack recState.tracks 0).events = [⟨137, 0x90, 36, 100⟩] ∧
    recState.currentChannel = 0 ∧
    (getTrack (start_recording_on_beat_rec recState).tracks 0).events = [] := by
  decide

/-- Claim C5 (amended): the terminalMIDI.c armed→recording transition
leaves every track untouched (overdub); the terminalMIDIrecorder.c
variant clears the current track and leaves every other track untouched
(overwrite). -/
theorem c5_record_start_track_effect (s : SynthState) (i : Nat)
    (hi : i ≠ s.currentChannel) :
    (start_recording_on_beat s).tracks = s.tracks ∧
    getTrack (start_recording_on_beat_rec s).tracks i = getTrack s.tracks i ∧
    (getTrack (start_recording_on_beat_rec s).tracks s.currentChannel).events = [] := by
  refine ⟨rfl, ?_, ?_⟩
  · simp only [start_recording_on_beat_rec, getTrack]
    exact getD_set_ne _ _ _ _ _ (fun h => hi h.symm)
  · simp only [start_recording_on_beat_rec, getTrack]
    rw [getD_set_self]
    split <;> rfl

theorem c5_record_start_track_effect_witness :
    (1 : Nat) ≠ recState.currentChannel ∧
      ((start_recording_on_beat recState).tracks = recState.tracks ∧
        getTrack (start_recording_on_beat_rec recState).tracks 1 =
          getTrack recState.tracks 1 ∧
        (getTrack (start_recording_on_beat_rec recState).tracks
            recState.currentChannel).events = []) :=
  ⟨by decide, c5_record_start_track_effect recState 1 (by decide)⟩

/-! ## Claim C7 : beat counting and auto-stop -/

/-- Claim C7 counterexample: the terminalMIDIrecorder.c beat handler
stops recording on the fire that makes beatsRecorded = 16, although
16 > TOTAL_BEATS is false. -/
theorem c7_counterexample_autostop_at_16 :
    beat15State.recording = true ∧
    ((beat_tick_rec beat15State).1).beatsRecorded = 16 ∧
    ((beat_tick_rec beat15State).1).recording = false ∧
    ¬ TOTAL_BEATS < 16 := by
  decide

/-- Claim C7 (amended): on a terminalMIDI.c beat fire while recording
(latch on, not armed), beatsRecorded increments by exactly one and
recording stops on that fire iff the incremented count exceeds
TOTAL_BEATS; the terminalMIDIrecorder.c variant instead stops as soon as
the incremented count reaches TOTAL_BEATS. -/
theorem c7_beat_counting (s : SynthState)
    (hrun : s.clockRunning = true) (hrec : s.recording = true)
    (harm : s.recordArmed = false) (hcaps : s.capsLockOn = true) :
    ((beat_tick s).1).beatsRecorded = s.beatsRecorded + 1 ∧
    (((beat_tick s).1).recording = false ↔ TOTAL_BEATS < s.beatsRecorded + 1) ∧
    (((beat_tick_rec s).1).beatsRecorded = s.beatsRecorded + 1 ∧
      (((beat_tick_rec s).1).recording = false ↔ TOTAL_BEATS ≤ s.beatsRecorded + 1)) := by
  have h1 : ((beat_tick s).1).beatsRecorded = s.beatsRecorded + 1 ∧
      (((beat_tick s).1).recording = false ↔ TOTAL_BEATS < s.beatsRecorded + 1) := by
    unfold beat_tick stop_recording
    by_cases hb : s.currentBeat = 0 <;>
      by_cases hstop : TOTAL_BEATS < s.beatsRecorded + 1 <;>
        simp [hrun, hrec, harm, hcaps, hb, hstop]
  have h2 : ((beat_tick_rec s).1).beatsRecorded = s.beatsRecorded + 1 ∧
      (((beat_tick_rec s).1).recording = false ↔ TOTAL_BEATS ≤ s.beatsRecorded + 1) := by
    unfold beat_tick_rec stop_recording
    by_cases hstop : TOTAL_BEATS ≤ s.beatsRecorded + 1 <;>
      by_cases hb2 : (s.currentBeat + 1) % TOTAL_BEATS = 0 <;>
        simp [hrun, hrec, harm, hb2, hstop]
  exact ⟨h1.1, h1.2, h2⟩

theorem c7_beat_counting_witness :
    (beat15State.clockRunning = true ∧ beat15State.recording = true ∧
        beat15State.recordArmed = false ∧ beat15State.capsLockOn = true → False) ∨
      (((beat_tick beat15State).1).beatsRecorded = beat15State.beatsRecorded + 1 ∧
        (((beat_tick beat15State).1).recording = false ↔
          TOTAL_BEATS < beat15State.beatsRecorded + 1) ∧
        (((beat_tick_rec beat15State).1).beatsRecorded = beat15State.beatsRecorded + 1 ∧
          (((beat_tick_rec beat15State).1).recording = false ↔
            TOTAL_BEATS ≤ beat15State.beatsRecorded + 1))) :=
  Or.inr (c7_beat_counting beat15State (by decide) (by decide) (by decide) (by decide))

/-! ## Claim C9 : panic -/

/-- Claim C9 counterexample: with note 60 held on channel 0 and the
internal synth selected, panic emits no NoteOff for note 60 (every
emitted message is CC 123); the claimed per-note NoteOff is absent. -/
theorem c9_counterexample_no_note_off :
    getHeld heldNoteState.heldNoteChannel 60 = some 0 ∧
    heldNoteState.selectedOutput = 0 ∧
    ((midi_panic heldNoteState).2.all fun m =>
      !(decide (m.status = 0x80 ||| 0) && decide (m.data1 = 60))) = true ∧
    ((midi_panic heldNoteState).2.all fun m => decide (m.data1 = 123)) = true := by
  decide

/-- Claim C9 (amended): panic emits exactly one CC 123 (status 0xB0|ch,
data 123, 0) on each of the 16 channels — and nothing else, in
particular no per-note NoteOff — and clears the whole held-note map. -/
theorem c9_panic_cc123_and_clear (s : SynthState) (hsel : s.selectedOutput = 0) :
    (midi_panic s).2 = (List.range 16).map (fun ch => ⟨0xB0 ||| ch, 123, 0⟩) ∧
    (midi_panic s).1 = { s with heldNoteChannel := List.replicate 128 none } := by
  constructor
  · simp only [midi_panic, hsel, if_pos]
    exact flatMap_singleton_map _ _
  · rfl

theorem c9_panic_cc123_and_clear_witness :
    heldNoteState.selectedOutput = 0 ∧
      ((midi_panic heldNoteState).2 =
          (List.range 16).map (fun ch => ⟨0xB0 ||| ch, 123, 0⟩) ∧
        (midi_panic heldNoteState).1 =
          { heldNoteState with heldNoteChannel := List.replicate 128 none }) :=
  ⟨by decide, c9_panic_cc123_and_clear heldNoteState (by decide)⟩

/-! ## Claim C8 : held-note bookkeeping and note-off routing -/

/-- Claim C8: the held-note map stores at most one channel per note —
note_on binds the note to exactly the current channel (touching no other
entry) — and note_off emits (and, while recording, records) on the
channel stored at the press even if the active channel has changed since;
afterwards the note is not held. -/
theorem c8_held_note_routing (s : SynthState) (note velocity tick ch : Nat)
    (hn : note < 128) (hch : ch < s.tracks.length) :
    ((note_on s note velocity tick).1).heldNoteChannel
        = s.heldNoteChannel.set note (some s.currentChannel) ∧
    (getHeld s.heldNoteChannel note = some ch →
      (note_off s note tick).2 = note_off_internal s ch note ∧
      getHeld ((note_off s note tick).1).heldNoteChannel note = none ∧
      getTrack ((note_off s note tick).1).tracks ch =
        (if s.recording = true ∧ s.clockRunning = true ∧
            (getTrack s.tracks ch).events.length < MAX_EVENTS_PER_TRACK then
          { getTrack s.tracks ch with events := (getTrack s.tracks ch).events ++
              [⟨if s.quantizeEnabled then quantizeTick tick else tick, 0x80, note, 0⟩] }
        else getTrack s.tracks ch)) := by
  have hn' : ¬128 ≤ note := not_le.mpr hn
  constructor
  · unfold note_on recordEvent
    simp only [hn', if_false]
    split
    · split <;> rfl
    · rfl
  · intro hheld
    unfold note_off recordEvent
    simp only [hn', if_false, hheld]
    by_cases h1 : s.recording = true ∧ s.clockRunning = true
    · by_cases h2 : (getTrack s.tracks ch).events.length < MAX_EVENTS_PER_TRACK
      · simp only [h1.1, h1.2, and_self, if_true, h2, true_and]
        repeat' apply And.intro
        all_goals first
          | exact getHeld_set_none _ _
          | rfl
          | (simp only [getTrack] at *; rw [getD_set_self]; simp [hch])
      · simp only [h1.1, h1.2, and_self, if_true, true_and]
        rw [if_neg h2, if_neg (by simp [h2])]
        repeat' apply And.intro
        all_goals first | exact getHeld_set_none _ _ | rfl
    · have h1' : ¬(s.recording = true ∧ s.clockRunning = true ∧
          (getTrack s.tracks ch).events.length < MAX_EVENTS_PER_TRACK) := by tauto
      rw [if_neg h1, if_neg h1']
      repeat' apply And.intro
      all_goals first | exact getHeld_set_none _ _ | rfl

theorem c8_held_note_routing_witness :
    ((60 : Nat) < 128 ∧ (0 : Nat) < heldNoteState.tracks.length) ∧
      (((note_on heldNoteState 60 100 0).1).heldNoteChannel
          = heldNoteState.heldNoteChannel.set 60 (some heldNoteState.currentChannel) ∧
        (getHeld heldNoteState.heldNoteChannel 60 = some 0 →
          (note_off heldNoteState 60 0).2 = note_off_internal heldNoteState 0 60 ∧
          getHeld ((note_off heldNoteState 60 0).1).heldNoteChannel 60 = none ∧
          getTrack ((note_off heldNoteState 60 0).1).tracks 0 =
            (if heldNoteState.recording = true ∧ heldNoteState.clockRunning = true ∧
                (getTrack heldNoteState.tracks 0).events.length < MAX_EVENTS_PER_TRACK then
              { getTrack heldNoteState.tracks 0 with
                  events := (getTrack heldNoteState.tracks 0).events ++
                    [⟨if heldNoteState.quantizeEnabled then quantizeTick 0 else 0,
                      0x80, 60, 0⟩] }
            else getTrack heldNoteState.tracks 0))) :=
  ⟨⟨by decide, by decide⟩, c8_held_note_routing heldNoteState 60 100 0 0 (by decide) (by decide)⟩

/-! ## Claim C3 : the transport invariant over all reachable states -/

theorem transportInv_of_proj {s t : SynthState} (h : TransportInv s)
    (hrec : t.recording = s.recording) (hrun : t.clockRunning = s.clockRunning)
    (harm : t.recordArmed = s.recordArmed) : TransportInv t := by
  unfold TransportInv at *
  rw [hrec, hrun, harm]
  exact h

theorem transportInv_beat_tick {s : SynthState} (h : TransportInv s) :
    TransportInv (beat_tick s).1 := by
  unfold beat_tick start_recording_on_beat stop_recording
  by_cases hrun : s.clockRunning = true
  · cases hrec : s.recording <;> cases harm : s.recordArmed <;>
      cases hcaps : s.capsLockOn <;> by_cases hb : s.currentBeat = 0 <;>
        by_cases hstop : TOTAL_BEATS < s.beatsRecorded + 1 <;>
          simp_all [TransportInv, TOTAL_BEATS, BEATS_PER_BAR, TOTAL_BARS] <;>
            (try split) <;> simp_all
  · simp only [Bool.not_eq_true] at hrun
    simp [hrun]
    exact h

theorem transportInv_toggle_clock {s : SynthState} (h : TransportInv s) :
    TransportInv (toggle_clock s).1 := by
  unfold toggle_clock start_clock stop_clock
  by_cases hrun : s.clockRunning = true
  · simp only [hrun, if_true, Bool.not_eq_true, not_true, if_false]
    exact ⟨by simp, fun ha => by simp⟩
  · simp only [Bool.not_eq_true] at hrun
    simp only [hrun, Bool.false_eq_true, if_false, not_false_eq_true, if_true]
    exact transportInv_beat_tick ⟨fun _ => rfl, fun ha => h.2 ha⟩

theorem transportInv_caps_event {s : SynthState} (h : TransportInv s) (b : Bool) :
    TransportInv (caps_event s b) := by
  unfold caps_event sync_recording_to_capslock arm_recording stop_recording
  cases b
  · simp only [Bool.false_eq_true, if_false]
    split
    · exact h
    · exact ⟨fun hx => by simp_all, fun _ => rfl⟩
  · simp only [if_true]
    split
    · exact h
    · rename_i hcond
      push_neg at hcond
      exact ⟨fun hx => h.1 hx, fun _ => by simpa using hcond.2.1⟩

/-- Claim C3 counterexample: start the clock, turn Caps Lock on (arming),
then stop the clock; stop_clock never clears recordArmed, so the reached
state has recordArmed = true with the clock stopped, violating
`armed ⇒ running`. -/
theorem c3_counterexample_armed_survives_stop :
    ¬ (∀ s : SynthState, Reachable s →
        (s.recording = true → s.clockRunning = true) ∧
        (s.recordArmed = true → s.clockRunning = true ∧ s.recording = false)) := by
  intro hall
  have hr : Reachable armedStoppedState :=
    Reachable.step .toggleClock
      (Reachable.step (.capsSet true) (Reachable.step .toggleClock (Reachable.init 0)))
  have harm : armedStoppedState.recordArmed = true := by decide
  have := ((hall armedStoppedState hr).2 harm).1
  have hrun : armedStoppedState.clockRunning = false := by decide
  rw [hrun] at this
  exact Bool.false_ne_true this

/-- Claim C3 (amended): in every reachable state, recording implies the
clock is running and armed implies not recording; but armed does NOT
imply running — stopping the clock while armed leaves recordArmed set
(see the counterexample). -/
theorem c3_transport_invariant (s : SynthState) (h : Reachable s) : TransportInv s := by
  induction h with
  | init destCount => exact ⟨fun hx => by simp [initState] at hx, fun _ => rfl⟩
  | step c hs ih =>
    cases c with
    | toggleClock => exact transportInv_toggle_clock ih
    | capsSet b => exact transportInv_caps_event ih b
    | beatFire => exact transportInv_beat_tick ih
    | noteOnKey n v t =>
      refine transportInv_of_proj ih ?_ ?_ ?_ <;>
        (simp only [step, note_on, recordEvent]; repeat' split) <;> rfl
    | noteOffKey n t =>
      refine transportInv_of_proj ih ?_ ?_ ?_ <;>
        (simp only [step, note_off, recordEvent]; repeat' split) <;> rfl
    | tempoSet b =>
      refine transportInv_of_proj ih ?_ ?_ ?_ <;>
        (simp only [step, tempo_change]; repeat' split) <;> rfl
    | programSet p =>
      refine transportInv_of_proj ih ?_ ?_ ?_ <;>
        (simp only [step, program_change]; repeat' split) <;> rfl
    | channelSet ch =>
      refine transportInv_of_proj ih ?_ ?_ ?_ <;>
        (simp only [step, channel_change]; repeat' split) <;> rfl
    | clearTrack =>
      refine transportInv_of_proj ih ?_ ?_ ?_ <;>
        (simp only [step, clear_current_track]; repeat' split) <;> rfl
    | quantizeToggle =>
      refine transportInv_of_proj ih ?_ ?_ ?_ <;>
        (simp only [step, toggle_quantize]; repeat' split) <;> rfl
    | metronomeToggle => exact transportInv_of_proj ih rfl rfl rfl
    | octaveUp =>
      refine transportInv_of_proj ih ?_ ?_ ?_ <;>
        (simp only [step, octave_up]; repeat' split) <;> rfl
    | octaveDown =>
      refine transportInv_of_proj ih ?_ ?_ ?_ <;>
        (simp only [step, octave_down]; repeat' split) <;> rfl
    | panic => exact transportInv_of_proj ih rfl rfl rfl
    | selectOutput i =>
      refine transportInv_of_proj ih ?_ ?_ ?_ <;>
        (simp only [step, select_midi_output]; repeat' split) <;> rfl

theorem c3_transport_invariant_witness :
    Reachable (initState 0) ∧ TransportInv (initState 0) :=
  ⟨Reachable.init 0, c3_transport_invariant (initState 0) (Reachable.init 0)⟩

/-! ## Claim C1 : the playback scanner emits exactly the claimed events -/

theorem flatMap_append_perm {α β : Type} (l : List α) (f g : α → List β) :
    (l.flatMap f ++ l.flatMap g).Perm (l.flatMap fun x => f x ++ g x) := by
  induction l with
  | nil => simp
  | cons a l ih =>
    simp only [List.flatMap_cons]
    have hmid : (l.flatMap f ++ (g a ++ l.flatMap g)).Perm
        (g a ++ (l.flatMap f ++ l.flatMap g)) := by
      rw [← List.append_assoc, ← List.append_assoc]
      exact List.perm_append_comm.append_right _
    have h1 : ((f a ++ l.flatMap f) ++ (g a ++ l.flatMap g)).Perm
        ((f a ++ g a) ++ (l.flatMap f ++ l.flatMap g)) := by
      simpa [List.append_assoc] using hmid.append_left (f a)
    exact h1.trans (ih.append_left _)

theorem filter_or_disjoint_perm {α : Type} (p q : α → Bool) (l : List α)
    (hdisj : ∀ a, ¬(p a = true ∧ q a = true)) :
    (l.filter p ++ l.filter q).Perm (l.filter fun a => p a || q a) := by
  induction l with
  | nil => simp
  | cons a l ih =>
    by_cases hp : p a = true
    · have hq : ¬q a = true := fun hq => hdisj a ⟨hp, hq⟩
      simp only [List.filter_cons, hp, if_true, hq, if_false, Bool.or_eq_true,
        hp, true_or, List.cons_append]
      simpa using ih.cons a
    · by_cases hq : q a = true
      · simp only [List.filter_cons, hp, if_false, hq, if_true, Bool.or_eq_true,
          or_true, hq]
        refine List.perm_middle.trans ?_
        simpa [hp, hq] using ih.cons a
      · simp only [List.filter_cons, hp, hq, if_false, Bool.or_eq_true]
        simpa [hp, hq] using ih

theorem flatMap_congr_perm {α β : Type} (l : List α) (f g : α → List β)
    (h : ∀ a ∈ l, (f a).Perm (g a)) : (l.flatMap f).Perm (l.flatMap g) := by
  induction l with
  | nil => simp
  | cons a l ih =>
    simp only [List.flatMap_cons]
    exact (h a (by simp)).append (ih fun a ha => h a (by simp [ha]))

/-- On a non-wrapping fire the code predicate and the claim predicate
agree. -/
theorem claimedHit_eq_inRange (lastTick nowTick tick : Nat) (h : lastTick ≤ nowTick) :
    claimedHit lastTick nowTick tick = inRange lastTick nowTick tick := by
  unfold claimedHit inRange
  simp [h]

/-- On a wrapping fire the claim predicate is the disjunction of the two
scanned ranges. -/
theorem claimedHit_wrap (lastTick nowTick tick : Nat)
    (hlast : lastTick < totalLoopTicks) (hwrap : nowTick < lastTick) :
    claimedHit lastTick nowTick tick =
      (inRange lastTick totalLoopTicks tick || inRange 0 nowTick tick) := by
  unfold claimedHit inRange
  have h1 : ¬lastTick ≤ nowTick := by omega
  have h2 : lastTick ≤ totalLoopTicks := le_of_lt hlast
  simp [h1, h2]

/-- Per-fire behaviour: one playback_tick fire emits exactly the events
whose tick lies in the claimed set, and lastPlaybackTick becomes
nowTick. -/
theorem scan_fired_perm (ts : List MIDITrack) (lastTick nowTick : Nat)
    (hlast : lastTick < totalLoopTicks) :
    ((playback_scan ts lastTick nowTick).1).Perm (claimedFired ts lastTick nowTick) ∧
      (playback_scan ts lastTick nowTick).2 = nowTick := by
  constructor
  · unfold playback_scan
    split
    · rename_i hwrap
      unfold fired_in_range claimedFired
      refine (flatMap_append_perm _ _ _).trans (flatMap_congr_perm _ _ _ fun te _ => ?_)
      rw [← List.map_append]
      refine List.Perm.map _ ?_
      refine (filter_or_disjoint_perm _ _ _ ?_).trans ?_
      · intro e he
        unfold inRange at he
        have h2 : lastTick ≤ totalLoopTicks := le_of_lt hlast
        rcases he with ⟨he1, he2⟩
        simp only [h2, if_pos, Nat.zero_le, Bool.and_eq_true, decide_eq_true_eq] at he1 he2
        omega
      · have heq := List.filter_congr
          (fun e (_ : e ∈ te.2.events) => (claimedHit_wrap lastTick nowTick e.tick hlast hwrap).symm)
        rw [heq]
    · rename_i hnw
      unfold fired_in_range claimedFired
      have h : lastTick ≤ nowTick := by omega
      have heq : ∀ te : Nat × MIDITrack,
          ((te.2.events.filter fun e => inRange lastTick nowTick e.tick).map
              fun e => (te.1, e)) =
            ((te.2.events.filter fun e => claimedHit lastTick nowTick e.tick).map
              fun e => (te.1, e)) := by
        intro te
        rw [List.filter_congr fun e _ => (claimedHit_eq_inRange lastTick nowTick e.tick h).symm]
      rw [funext heq]
  · unfold playback_scan
    split <;> rfl

/-- One fire hits ring position x iff some absolute position in
[a, b) reduces to x, provided the fire advanced by less than one loop.
The fire's lastTick is a mod totalLoopTicks, its nowTick is b mod
totalLoopTicks. -/
theorem scanHits_iff_exists (a b x : Nat) (hx : x < totalLoopTicks) (hab : a ≤ b)
    (hlt : b - a < totalLoopTicks) :
    scanHits (a % totalLoopTicks) (b % totalLoopTicks) x = true ↔
      ∃ c, a ≤ c ∧ c < b ∧ c % totalLoopTicks = x := by
  unfold scanHits inRange
  simp only [totalLoopTicks, TICKS_PER_BEAT, TOTAL_BEATS, BEATS_PER_BAR, TOTAL_BARS] at *
  constructor
  · intro h
    split_ifs at h <;>
      simp only [Bool.or_eq_true, Bool.and_eq_true, decide_eq_true_eq] at h <;>
      (rcases le_or_lt (a % (480 * (4 * 4))) x with hc | hc
       · exact ⟨a - a % (480 * (4 * 4)) + x, by omega, by omega, by omega⟩
       · exact ⟨a - a % (480 * (4 * 4)) + (480 * (4 * 4)) + x, by omega, by omega, by omega⟩)
  · rintro ⟨c, h1, h2, h3⟩
    split_ifs <;>
      simp only [Bool.or_eq_true, Bool.and_eq_true, decide_eq_true_eq] <;> omega

/-- Monotone accumulation of the scan positions. -/
theorem steps_mono (f : Nat → Nat) (n : Nat) (hmono : ∀ i, i < n → f i ≤ f (i + 1)) :
    ∀ i j, i ≤ j → j ≤ n → f i ≤ f j := by
  intro i j hij hjn
  induction j with
  | zero =>
    have hi : i = 0 := by omega
    exact hi ▸ le_refl _
  | succ j ihj =>
    rcases Nat.lt_or_ge i (j + 1) with h | h
    · exact le_trans (ihj (by omega) (by omega)) (hmono j (by omega))
    · have hj : i = j + 1 := by omega
      exact hj ▸ le_refl _

/-- Every absolute position below f n and at least f 0 lies in exactly
one step interval; existence half. -/
theorem exists_step_interval (f : Nat → Nat) :
    ∀ n c, (∀ i, i < n → f i ≤ f (i + 1)) → f 0 ≤ c → c < f n →
      ∃ i, i < n ∧ f i ≤ c ∧ c < f (i + 1) := by
  intro n
  induction n with
  | zero => intro c _ h0 hn; omega
  | succ n ih =>
    intro c hmono h0 hn
    rcases Nat.lt_or_ge c (f n) with h | h
    · obtain ⟨i, hi, h1, h2⟩ := ih c (fun i hi => hmono i (by omega)) h0 h
      exact ⟨i, by omega, h1, h2⟩
    · exact ⟨n, Nat.lt_succ_self n, h, hn⟩

/-- In any half-open window of length exactly totalLoopTicks there is
exactly one absolute position with a given residue. -/
theorem exists_unique_residue (d x : Nat) (hx : x < totalLoopTicks) :
    ∃ c, (d ≤ c ∧ c < d + totalLoopTicks ∧ c % totalLoopTicks = x) ∧
      ∀ c2, d ≤ c2 → c2 < d + totalLoopTicks → c2 % totalLoopTicks = x → c2 = c := by
  rcases le_or_lt (d % totalLoopTicks) x with hc | hc
  · refine ⟨d - d % totalLoopTicks + x, ⟨?_, ?_, ?_⟩, fun c2 u1 u2 u3 => ?_⟩ <;>
      (simp only [totalLoopTicks, TICKS_PER_BEAT, TOTAL_BEATS, BEATS_PER_BAR,
        TOTAL_BARS] at *; omega)
  · refine ⟨d - d % totalLoopTicks + totalLoopTicks + x, ⟨?_, ?_, ?_⟩,
      fun c2 u1 u2 u3 => ?_⟩ <;>
      (simp only [totalLoopTicks, TICKS_PER_BEAT, TOTAL_BEATS, BEATS_PER_BAR,
        TOTAL_BARS] at *; omega)

/-- Exactly-once: over a sequence of fires whose absolute positions
advance by less than a loop each and by exactly one loop in total, each
ring position x is hit by exactly one fire. -/
theorem scan_exactly_once (f : Nat → Nat) (n x : Nat) (hx : x < totalLoopTicks)
    (hmono : ∀ i, i < n → f i ≤ f (i + 1) ∧ f (i + 1) - f i < totalLoopTicks)
    (hloop : f n = f 0 + totalLoopTicks) :
    ((Finset.range n).filter
        (fun i => scanHits (f i % totalLoopTicks) (f (i + 1) % totalLoopTicks) x = true)).card
      = 1 := by
  obtain ⟨c0, ⟨hc1, hc2, hc3⟩, hcu⟩ := exists_unique_residue (f 0) x hx
  obtain ⟨i0, hi0, hfi0, hci0⟩ :=
    exists_step_interval f n c0 (fun i hi => (hmono i hi).1) hc1 (by omega)
  rw [Finset.card_eq_one]
  refine ⟨i0, ?_⟩
  ext i
  simp only [Finset.mem_filter, Finset.mem_range, Finset.mem_singleton]
  constructor
  · rintro ⟨hin, hhit⟩
    obtain ⟨c, hca, hcb, hcm⟩ :=
      (scanHits_iff_exists (f i) (f (i + 1)) x hx (hmono i hin).1 (hmono i hin).2).mp hhit
    have hcl : f 0 ≤ c :=
      le_trans (steps_mono f n (fun j hj => (hmono j hj).1) 0 i (by omega) (by omega)) hca
    have hcr : c < f 0 + totalLoopTicks := by
      have : f (i + 1) ≤ f n :=
        steps_mono f n (fun j hj => (hmono j hj).1) (i + 1) n (by omega) (by omega)
      omega
    have hceq : c = c0 := hcu c hcl hcr hcm
    subst hceq
    by_contra hne
    rcases Nat.lt_or_ge i i0 with hlt | hge
    · have : f (i + 1) ≤ f i0 :=
        steps_mono f n (fun j hj => (hmono j hj).1) (i + 1) i0 (by omega) (by omega)
      omega
    · have hgt : i0 < i := by omega
      have : f (i0 + 1) ≤ f i :=
        steps_mono f n (fun j hj => (hmono j hj).1) (i0 + 1) i (by omega) (by omega)
      omega
  · rintro rfl
    refine ⟨hi0, ?_⟩
    exact (scanHits_iff_exists _ _ x hx (hmono _ hi0).1
      (hmono _ hi0).2).mpr ⟨c0, hfi0, hci0, hc3⟩

/-- Claim C1: each playback fire emits exactly the recorded events whose
tick lies in [lastTick, nowTick) (non-wrap) or in
[lastTick, totalLoopTicks) ∪ [0, nowTick) (wrap) and then sets lastTick
to nowTick; consequently, over any loop pass (absolute scan positions
advancing by less than a loop per fire and by exactly one loop in total),
every ring position — including totalLoopTicks - 1 — is scanned by
exactly one fire. -/
theorem c1_playback_scanner_exact :
    (∀ (ts : List MIDITrack) (lastTick nowTick : Nat),
        lastTick < totalLoopTicks →
        ((playback_scan ts lastTick nowTick).1).Perm (claimedFired ts lastTick nowTick) ∧
          (playback_scan ts lastTick nowTick).2 = nowTick) ∧
    (∀ (f : Nat → Nat) (n x : Nat),
        x < totalLoopTicks →
        (∀ i, i < n → f i ≤ f (i + 1) ∧ f (i + 1) - f i < totalLoopTicks) →
        f n = f 0 + totalLoopTicks →
        ((Finset.range n).filter
            (fun i =>
              scanHits (f i % totalLoopTicks) (f (i + 1) % totalLoopTicks) x = true)).card
          = 1) :=
  ⟨scan_fired_perm, scan_exactly_once⟩

theorem c1_playback_scanner_exact_witness :
    (((playback_scan c1Tracks 7000 5).1).Perm (claimedFired c1Tracks 7000 5) ∧
      (playback_scan c1Tracks 7000 5).2 = 5) ∧
    ((Finset.range 4).filter
        (fun i =>
          scanHits (1920 * i % totalLoopTicks) (1920 * (i + 1) % totalLoopTicks) 7679
            = true)).card = 1 :=
  ⟨c1_playback_scanner_exact.1 c1Tracks 7000 5 (by decide),
   c1_playback_scanner_exact.2 (fun i => 1920 * i) 4 7679 (by decide) (by decide) (by decide)⟩

/-! ## Claim C2 : SMF save / independent re-parse round trip -/

theorem write_variable_length_zero : write_variable_length 0 = [0] := by
  rw [write_variable_length, writeVLQhigh]
  rfl

theorem readVLQaux_writeVLQhigh (v : Nat) :
    ∀ acc tail, readVLQaux acc (writeVLQhigh v ++ tail) = readVLQaux (vshift acc v) tail := by
  induction v using Nat.strong_induction_on with
  | _ v ih =>
    intro acc tail
    by_cases h : v = 0
    · subst h
      rw [writeVLQhigh, vshift]
      rfl
    · rw [writeVLQhigh, vshift, dif_neg h, if_neg h, List.append_assoc,
        ih (v / 128) (Nat.div_lt_self (Nat.pos_of_ne_zero h) (by norm_num))]
      show readVLQaux (vshift acc (v / 128)) ((v % 128 + 128) :: tail) = _
      simp only [readVLQaux]
      rw [if_neg (by omega)]
      have hm : (v % 128 + 128) % 128 = v % 128 := by omega
      rw [hm]

theorem vshift_zero (v : Nat) : vshift 0 v = v := by
  induction v using Nat.strong_induction_on with
  | _ v ih =>
    by_cases h : v = 0
    · subst h
      rw [vshift]
      rfl
    · rw [vshift, if_neg h, ih (v / 128) (Nat.div_lt_self (Nat.pos_of_ne_zero h) (by norm_num))]
      omega

/-- Decoding a written variable-length quantity recovers the value and
leaves the remaining bytes untouched. -/
theorem readVLQ_roundtrip (v : Nat) (tail : List Nat) :
    readVLQ (write_variable_length v ++ tail) = some (v, tail) := by
  unfold readVLQ write_variable_length
  rw [List.append_assoc, readVLQaux_writeVLQhigh, vshift_zero]
  show readVLQaux (v / 128) (v % 128 :: tail) = _
  simp only [readVLQaux]
  rw [if_pos (by omega)]
  have hm : v / 128 * 128 + v % 128 = v := by omega
  rw [hm]

theorem readBE32_be32 (n : Nat) (h : n < 4294967296) (rest : List Nat) :
    readBE32 (be32 n ++ rest) = some (n, rest) := by
  simp only [be32, List.cons_append, List.nil_append, readBE32, Option.some.injEq,
    Prod.mk.injEq]
  exact ⟨by omega, trivial⟩

theorem readBE16_be16 (n : Nat) (h : n < 65536) (rest : List Nat) :
    readBE16 (be16 n ++ rest) = some (n, rest) := by
  simp only [be16, List.cons_append, List.nil_append, readBE16, Option.some.injEq,
    Prod.mk.injEq]
  exact ⟨by omega, trivial⟩

theorem lor_0x80 (c : Nat) (hc : c < 16) : 0x80 ||| c = 0x80 + c := by
  interval_cases c <;> rfl

theorem lor_0x90 (c : Nat) (hc : c < 16) : 0x90 ||| c = 0x90 + c := by
  interval_cases c <;> rfl

theorem lor_0xC0 (c : Nat) (hc : c < 16) : 0xC0 ||| c = 0xC0 + c := by
  interval_cases c <;> rfl

theorem writeVLQhigh_length_le (w : Nat) (h : w < 128) : (writeVLQhigh w).length ≤ 1 := by
  by_cases hw : w = 0
  · subst hw
    rw [writeVLQhigh]
    simp
  · rw [writeVLQhigh, dif_neg hw]
    have h0 : w / 128 = 0 := by omega
    rw [h0, writeVLQhigh]
    simp

theorem write_variable_length_length (v : Nat) (h : v < 16384) :
    1 ≤ (write_variable_length v).length ∧ (write_variable_length v).length ≤ 2 := by
  unfold write_variable_length
  have := writeVLQhigh_length_le (v / 128) (by omega)
  simp only [List.length_append, List.length_cons, List.length_nil]
  omega

theorem eventBytes_length (ch : Nat) :
    ∀ (evs : List MIDIEvent) (lastTick : Nat),
      (∀ e ∈ evs, e.tick < totalLoopTicks) →
      evs.length ≤ (eventBytes ch lastTick evs).length ∧
        (eventBytes ch lastTick evs).length ≤ 5 * evs.length := by
  intro evs
  induction evs with
  | nil => intro lastTick _; simp [eventBytes]
  | cons e rest ih =>
    intro lastTick hwf
    have h1 := write_variable_length_length (e.tick - lastTick)
      (by have := hwf e (by simp); simp only [totalLoopTicks, TICKS_PER_BEAT, TOTAL_BEATS,
            BEATS_PER_BAR, TOTAL_BARS] at this; omega)
    have h2 := ih e.tick (fun x hx => hwf x (by simp [hx]))
    simp only [eventBytes, List.append_assoc, List.length_append, List.length_cons,
      List.length_nil]
    simp only [List.length_cons] at h2 ⊢
    omega

theorem ascFrom_of_pairwise :
    ∀ (l : List MIDIEvent) (t : Nat),
      List.Pairwise (fun a b => a.tick ≤ b.tick) l → (∀ e ∈ l, t ≤ e.tick) → ascFrom t l := by
  intro l
  induction l with
  | nil => intro t _ _; trivial
  | cons e rest ih =>
    intro t hp hall
    refine ⟨hall e (by simp), ih e.tick hp.of_cons fun x hx => ?_⟩
    exact (List.pairwise_cons.mp hp).1 x hx

/-- Parsing the writer's event stream (followed by the end-of-track
marker) recovers exactly the written events with absolute ticks. -/
theorem parseTrackBody_events (ch : Nat) (hch : ch < 16) :
    ∀ (evs : List MIDIEvent) (fuel time : Nat) (tail : List Nat),
      ascFrom time evs →
      (∀ e ∈ evs, e.status = 0x80 ∨ e.status = 0x90) →
      evs.length < fuel →
      parseTrackBody fuel time
          (eventBytes ch time evs ++ (write_variable_length 0 ++ (0xFF :: 0x2F :: 0x00 :: tail)))
        = some (evs.map (chEventOf ch)) := by
  intro evs
  induction evs with
  | nil =>
    intro fuel time tail _ _ hfuel
    obtain ⟨f, rfl⟩ : ∃ f, fuel = f + 1 := ⟨fuel - 1, by omega⟩
    simp only [eventBytes, List.nil_append, parseTrackBody]
    rw [readVLQ_roundtrip]
    simp [readVLQ, readVLQaux]
  | cons e rest ih =>
    intro fuel time tail hasc hst hfuel
    obtain ⟨f, rfl⟩ : ∃ f, fuel = f + 1 := ⟨fuel - 1, by omega⟩
    obtain ⟨hte, hascr⟩ := hasc
    have hs := hst e (by simp)
    have hstb : e.status ||| ch = e.status + ch := by
      rcases hs with h | h <;> rw [h]
      · exact lor_0x80 ch hch
      · exact lor_0x90 ch hch
    have hrange : 0x80 + ch ≤ e.status + ch ∧ e.status + ch < 0xA0 + ch := by
      rcases hs with h | h <;> rw [h] <;> omega
    simp only [eventBytes, List.append_assoc, List.cons_append, List.nil_append,
      parseTrackBody]
    rw [readVLQ_roundtrip, hstb]
    have ht : time + (e.tick - time) = e.tick := by omega
    have h255 : ¬(e.status + ch = 0xFF) := by omega
    have hCD : ¬(0xC0 ≤ e.status + ch ∧ e.status + ch < 0xE0) := by omega
    have h8C : 0x80 ≤ e.status + ch ∧ e.status + ch < 0xC0 := by omega
    have hA0 : e.status + ch < 0xA0 := by omega
    simp only [h255, if_false, hCD, h8C, if_true, ht, hA0]
    rw [ih f e.tick tail hascr (fun x hx => hst x (by simp [hx]))
      (by simp only [List.length_cons] at hfuel; omega)]
    rcases hs with h | h <;>
      simp only [h, and_self, if_true, Option.some.injEq, List.map_cons, chEventOf,
        List.cons.injEq, ChEvent.mk.injEq] <;>
      (repeat' apply And.intro) <;>
      first | rfl | trivial | omega

theorem sortEvents_perm (evs : List MIDIEvent) : (sortEvents evs).Perm evs :=
  List.mergeSort_perm evs _

theorem sortEvents_pairwise (evs : List MIDIEvent) :
    List.Pairwise (fun a b => a.tick ≤ b.tick) (sortEvents evs) := by
  unfold sortEvents
  refine (List.sorted_mergeSort ?_ ?_ evs).imp ?_
  · intro a b c hab hbc
    simp only [decide_eq_true_eq] at hab hbc ⊢
    omega
  · intro a b
    simp only [Bool.or_eq_true, decide_eq_true_eq]
    omega
  · intro a b hab
    simpa using hab

/-- Parsing a whole saved channel-track body: the program change is
skipped, then the sorted events are recovered. -/
theorem parseTrackBody_trackBody (ch : Nat) (track : MIDITrack) (fuel : Nat)
    (hch : ch < 16)
    (hst : ∀ e ∈ track.events, e.status = 0x80 ∨ e.status = 0x90)
    (hfuel : track.events.length + 1 < fuel) :
    parseTrackBody fuel 0 (trackBody ch track) =
      some ((sortEvents track.events).map (chEventOf ch)) := by
  obtain ⟨f, rfl⟩ : ∃ f, fuel = f + 1 := ⟨fuel - 1, by omega⟩
  unfold trackBody
  simp only [List.append_assoc, List.cons_append, List.nil_append, parseTrackBody]
  rw [readVLQ_roundtrip, lor_0xC0 ch hch]
  have h255 : ¬(0xC0 + ch = 0xFF) := by omega
  have hCD : 0xC0 ≤ 0xC0 + ch ∧ 0xC0 + ch < 0xE0 := ⟨by omega, by omega⟩
  simp only [h255, if_false, hCD, and_self, if_true]
  have hmap : ∀ e ∈ sortEvents track.events, e.status = 0x80 ∨ e.status = 0x90 :=
    fun e he => hst e ((sortEvents_perm track.events).mem_iff.mp he)
  have hasc : ascFrom 0 (sortEvents track.events) :=
    ascFrom_of_pairwise _ 0 (sortEvents_pairwise track.events) fun e _ => Nat.zero_le _
  have hlen : (sortEvents track.events).length = track.events.length :=
    (sortEvents_perm _).length_eq
  exact parseTrackBody_events ch hch (sortEvents track.events) f 0 [] hasc hmap (by omega)

/-- Parsing the conductor-track body yields no channel events. -/
theorem parseTrackBody_tempoBody (bpm fuel : Nat) (hfuel : 2 < fuel) :
    parseTrackBody fuel 0 (tempoBody bpm) = some [] := by
  obtain ⟨f1, rfl⟩ : ∃ f, fuel = f + 1 := ⟨fuel - 1, by omega⟩
  obtain ⟨f2, rfl⟩ : ∃ f, f1 = f + 1 := ⟨f1 - 1, by omega⟩
  obtain ⟨f3, rfl⟩ : ∃ f, f2 = f + 1 := ⟨f2 - 1, by omega⟩
  unfold tempoBody
  rw [write_variable_length_zero]
  simp [parseTrackBody, readVLQ, readVLQaux, BEATS_PER_BAR]

theorem tempoBody_length (bpm : Nat) : (tempoBody bpm).length = 19 := by
  simp [tempoBody, write_variable_length_zero]

theorem eventBytes_length_lb (ch : Nat) :
    ∀ (evs : List MIDIEvent) (lastTick : Nat),
      evs.length ≤ (eventBytes ch lastTick evs).length := by
  intro evs
  induction evs with
  | nil => intro t; simp [eventBytes]
  | cons e rest ih =>
    intro t
    have h := ih e.tick
    simp only [eventBytes, write_variable_length, List.append_assoc, List.length_append,
      List.length_cons, List.length_nil] at *
    omega

theorem trackBody_length_lb (ch : Nat) (track : MIDITrack) :
    track.events.length < (trackBody ch track).length := by
  have h := eventBytes_length_lb ch (sortEvents track.events) 0
  have hlen := (sortEvents_perm track.events).length_eq
  unfold trackBody
  rw [write_variable_length_zero]
  simp only [List.length_append, List.length_cons, List.length_nil]
  omega

theorem trackBody_length_ub (ch : Nat) (track : MIDITrack)
    (hwf : ∀ e ∈ track.events, e.tick < totalLoopTicks)
    (hcap : track.events.length ≤ MAX_EVENTS_PER_TRACK) :
    (trackBody ch track).length < 4294967296 := by
  have h := (eventBytes_length ch (sortEvents track.events) 0
    fun e he => hwf e ((sortEvents_perm track.events).mem_iff.mp he)).2
  have hlen := (sortEvents_perm track.events).length_eq
  simp only [MAX_EVENTS_PER_TRACK] at hcap
  unfold trackBody
  rw [write_variable_length_zero]
  simp only [List.length_append, List.length_cons, List.length_nil]
  omega

/-- Parsing the per-track chunk stream at the end of the file recovers,
chunk by chunk, the sorted events of each non-empty track. -/
theorem parseChunks_track_stream :
    ∀ (l : List (Nat × MIDITrack)),
      (∀ te ∈ l, te.1 < 16 ∧
        (∀ e ∈ te.2.events, e.tick < totalLoopTicks ∧ (e.status = 0x80 ∨ e.status = 0x90)) ∧
        te.2.events.length ≤ MAX_EVENTS_PER_TRACK) →
      parseChunks ((l.filter fun te => !te.2.events.isEmpty).length)
          (l.flatMap fun te =>
            if te.2.events.isEmpty then [] else mtrkChunk (trackBody te.1 te.2))
        = some ((l.filter fun te => !te.2.events.isEmpty).map
            fun te => (sortEvents te.2.events).map (chEventOf te.1)) := by
  intro l
  induction l with
  | nil => intro _; rfl
  | cons te l ih =>
    intro hall
    obtain ⟨hch, hwf, hcap⟩ := hall te (by simp)
    have ihl := ih fun x hx => hall x (by simp [hx])
    cases hemp : te.2.events.isEmpty with
    | true =>
      simp only [List.flatMap_cons, List.filter_cons, hemp, Bool.not_true, if_false,
        if_true, List.nil_append]
      exact ihl
    | false =>
      simp only [List.flatMap_cons, List.filter_cons, hemp, Bool.not_false, if_false,
        if_true, List.length_cons, List.map_cons]
      simp only [mtrkChunk, Bool.false_eq_true, if_false, List.nil_append,
        List.cons_append, List.append_assoc, parseChunks]
      rw [readBE32_be32 _ (trackBody_length_ub te.1 te.2 (fun e he => (hwf e he).1) hcap) _]
      dsimp only
      simp only [mtrkChunk, List.cons_append, List.append_assoc, List.nil_append] at ihl
      rw [List.take_left, List.drop_left,
        parseTrackBody_trackBody te.1 te.2 _ hch (fun e he => (hwf e he).2)
          (by have := trackBody_length_lb te.1 te.2; omega),
        ihl]

theorem enumFrom_filter_len :
    ∀ (l : List MIDITrack) (n : Nat),
      ((List.enumFrom n l).filter fun te => !te.2.events.isEmpty).length
        = (l.filter fun t => !t.events.isEmpty).length := by
  intro l
  induction l with
  | nil => intro n; rfl
  | cons t l ih =>
    intro n
    simp only [List.enumFrom, List.filter_cons]
    cases t.events.isEmpty <;> simp [ih]

theorem mem_enumFrom_facts {l : List MIDITrack} {n : Nat} :
    ∀ te ∈ List.enumFrom n l, te.1 < n + l.length ∧ te.2 ∈ l := by
  rintro ⟨i, tr⟩ hmem
  obtain ⟨h1, h2, h3⟩ := List.mem_enumFrom hmem
  exact ⟨h2, h3 ▸ List.getElem_mem _⟩

/-- Claim C2: for a well-formed track store (ticks inside the loop,
note-on/off statuses, 7-bit data, eventCount within capacity), parsing
the bytes of save_midi_file with a standard SMF reader yields a format-1
file at 480 PPQ whose first track is the (event-free) conductor track and
whose remaining tracks recover, for each non-empty track in order,
exactly the stored events — sorted ascending by tick (a permutation of
the store, ties preserved) — with status, note, velocity intact and
channel equal to the track index. -/
theorem c2_smf_round_trip (ts : List MIDITrack) (bpm : Nat)
    (hlen : ts.length = 16)
    (hwf : ∀ track ∈ ts, ∀ e ∈ track.events,
      e.tick < totalLoopTicks ∧ (e.status = 0x80 ∨ e.status = 0x90) ∧
        e.note < 128 ∧ e.velocity < 128)
    (hcap : ∀ track ∈ ts, track.events.length ≤ MAX_EVENTS_PER_TRACK) :
    parseSMF (save_midi_bytes ts bpm) =
      some ⟨1, 1 + (ts.filter fun t => !t.events.isEmpty).length, TICKS_PER_BEAT,
        [] :: ((ts.enum.filter fun te => !te.2.events.isEmpty).map
          fun te => (sortEvents te.2.events).map (chEventOf te.1))⟩ ∧
    (∀ track ∈ ts, (sortEvents track.events).Perm track.events ∧
      List.Pairwise (fun a b => a.tick ≤ b.tick) (sortEvents track.events)) := by
  refine ⟨?_, fun track _ => ⟨sortEvents_perm _, sortEvents_pairwise _⟩⟩
  have hcnt : 1 + (ts.filter fun t => !t.events.isEmpty).length < 65536 := by
    have := List.length_filter_le (fun t => !t.events.isEmpty) ts
    omega
  have hdiv : TICKS_PER_BEAT < 65536 := by
    simp [TICKS_PER_BEAT]
  unfold save_midi_bytes parseSMF
  simp only [List.cons_append, List.append_assoc, List.nil_append]
  rw [readBE32_be32 6 (by norm_num) _]
  dsimp only
  rw [readBE16_be16 1 (by norm_num) _]
  dsimp only
  rw [readBE16_be16 _ hcnt _]
  dsimp only
  rw [readBE16_be16 _ hdiv _]
  dsimp only
  rw [Nat.add_comm 1 ((ts.filter fun t => !t.events.isEmpty).length)]
  simp only [mtrkChunk, List.cons_append, List.append_assoc, List.nil_append, parseChunks]
  rw [readBE32_be32 _ (by rw [tempoBody_length]; norm_num) _]
  dsimp only
  rw [List.take_left, List.drop_left,
    parseTrackBody_tempoBody bpm _ (by rw [tempoBody_length]; norm_num)]
  have hstream := parseChunks_track_stream ts.enum ?side
  case side =>
    intro te hte
    have hfacts := mem_enumFrom_facts te (by simpa [List.enum] using hte)
    refine ⟨by omega, fun e he => ?_, hcap te.2 hfacts.2⟩
    obtain ⟨h1, h2, _, _⟩ := hwf te.2 hfacts.2 e he
    exact ⟨h1, h2⟩
  have hount : (ts.filter fun t => !t.events.isEmpty).length
      = ((ts.enum.filter fun te => !te.2.events.isEmpty)).length := by
    rw [show ts.enum = List.enumFrom 0 ts from rfl, enumFrom_filter_len]
  rw [hount]
  simp only [mtrkChunk, List.cons_append, List.append_assoc, List.nil_append] at hstream
  rw [hstream]

theorem c2_smf_round_trip_witness :
    (c2Tracks.length = 16 ∧
      (∀ track ∈ c2Tracks, ∀ e ∈ track.events,
        e.tick < totalLoopTicks ∧ (e.status = 0x80 ∨ e.status = 0x90) ∧
          e.note < 128 ∧ e.velocity < 128) ∧
      (∀ track ∈ c2Tracks, track.events.length ≤ MAX_EVENTS_PER_TRACK)) ∧
    (parseSMF (save_midi_bytes c2Tracks 120) =
        some ⟨1, 1 + (c2Tracks.filter fun t => !t.events.isEmpty).length, TICKS_PER_BEAT,
          [] :: ((c2Tracks.enum.filter fun te => !te.2.events.isEmpty).map
            fun te => (sortEvents te.2.events).map (chEventOf te.1))⟩ ∧
      (∀ track ∈ c2Tracks, (sortEvents track.events).Perm track.events ∧
        List.Pairwise (fun a b => a.tick ≤ b.tick) (sortEvents track.events))) :=
  ⟨⟨by decide, by decide, by decide⟩,
    c2_smf_round_trip c2Tracks 120 (by decide) (by decide) (by decide)⟩

end TerminalMIDI
